import Mathlib

/-!
Verification development for the carnavul video-archiving pipeline.

The JavaScript sources are embedded shallowly:
JS strings become `List Char`, nullable strings become `Option (List Char)`,
JS numbers used for similarity scores become `ℚ`, and the persistent JSON /
archive files become explicit state values.  Every definition follows the
corresponding function in the repository (parser.js, processor.js, state.js);
spec-side measures used only to state properties carry a `spec` prefix in
their doc comment.
-/

namespace Carnavul

/-! ### Character model (JS semantics on code points) -/

/-- JS whitespace class, as used by the regexes and by trim. -/
def jsSpaceNat (n : ℕ) : Bool :=
  n = 9 || n = 10 || n = 11 || n = 12 || n = 13 || n = 32 || n = 160 ||
  n = 5760 || (8192 ≤ n && n ≤ 8202) || n = 8232 || n = 8233 || n = 8239 ||
  n = 8287 || n = 12288 || n = 65279

/-- Whitespace test on a character. -/
def jsSpace (c : Char) : Bool := jsSpaceNat c.toNat

/-- Characters kept by the final replace of normalizeString: lowercase ASCII
letters and digits. -/
def isLowerAlnum (c : Char) : Bool :=
  (97 ≤ c.toNat && c.toNat ≤ 122) || (48 ≤ c.toNat && c.toNat ≤ 57)

/-- Combining diacritical marks U+0300 to U+036F. -/
def isCombining (c : Char) : Bool := 768 ≤ c.toNat && c.toNat ≤ 879

/-- Characters removed by the apostrophe-and-whitespace replace. -/
def isAposOrSpace (c : Char) : Bool := c.toNat = 39 || jsSpace c

/-- Per-character model of String.prototype.toLowerCase: ASCII A-Z and the
Latin-1 uppercase letters map down by 32, everything else is unchanged. -/
def jsToLowerChar (c : Char) : Char :=
  if 65 ≤ c.toNat ∧ c.toNat ≤ 90 then Char.ofNat (c.toNat + 32)
  else if 192 ≤ c.toNat ∧ c.toNat ≤ 222 ∧ c.toNat ≠ 215 then Char.ofNat (c.toNat + 32)
  else c

/-- Canonical decomposition table for the precomposed lowercase Latin letters
that occur in the catalog names (NFD maps each to base letter + combining
mark). -/
def nfdTable : List (Char × List Char) :=
  [ ('à', ['a', Char.ofNat 768]), ('á', ['a', Char.ofNat 769]),
    ('â', ['a', Char.ofNat 770]), ('ä', ['a', Char.ofNat 776]),
    ('è', ['e', Char.ofNat 768]), ('é', ['e', Char.ofNat 769]),
    ('ê', ['e', Char.ofNat 770]), ('ë', ['e', Char.ofNat 776]),
    ('ì', ['i', Char.ofNat 768]), ('í', ['i', Char.ofNat 769]),
    ('ò', ['o', Char.ofNat 768]), ('ó', ['o', Char.ofNat 769]),
    ('ô', ['o', Char.ofNat 770]), ('ö', ['o', Char.ofNat 776]),
    ('ù', ['u', Char.ofNat 768]), ('ú', ['u', Char.ofNat 769]),
    ('ü', ['u', Char.ofNat 776]), ('ñ', ['n', Char.ofNat 771]),
    ('ç', ['c', Char.ofNat 807]) ]

/-- Per-character model of String.prototype.normalize for form NFD. -/
def nfdChar (c : Char) : List Char :=
  match nfdTable.find? (fun p => p.1 = c) with
  | some p => p.2
  | none => [c]

/-! ### parser.js: normalizeString -/

/-- Body of normalizeString on an actual string: lowercase, NFD-decompose,
strip combining marks, strip apostrophes and whitespace, strip everything
outside lowercase ASCII letters and digits. -/
def normalizeStringS (s : List Char) : List Char :=
  ((((s.map jsToLowerChar).flatMap nfdChar).filter
      (fun c => !isCombining c)).filter
      (fun c => !isAposOrSpace c)).filter isLowerAlnum

/-- normalizeString from parser.js; a `none` argument models a non-string
input, which yields the empty string. -/
def normalizeString : Option (List Char) → List Char
  | none => []
  | some s => normalizeStringS s

/-! ### parser.js: calculateSimilarity -/

/-- listStartsWith s t: t is a prefix of s. -/
def listStartsWith : List Char → List Char → Bool
  | _, [] => true
  | [], _ :: _ => false
  | a :: as, b :: bs => a = b && listStartsWith as bs

/-- containsSub s t models s.includes(t): t occurs as a contiguous substring
of s (the empty string occurs in every string). -/
def containsSub : List Char → List Char → Bool
  | [], t => listStartsWith [] t
  | s@(_ :: rest), t => listStartsWith s t || containsSub rest t

/-- One row-extension step of the Levenshtein matrix: given the previous row
(starting at the diagonal cell) and the cell to the left, produce the rest of
the current row. -/
def levCells (c1 : Char) : List Char → List ℕ → ℕ → List ℕ
  | [], _, _ => []
  | _ :: _, [], _ => []
  | _ :: _, [_], _ => []
  | c2 :: cs, diag :: up :: prest, left =>
    let cell := if c1 = c2 then diag
                else min (min (diag + 1) (left + 1)) (up + 1)
    cell :: levCells c1 cs (up :: prest) cell

/-- Iterate the rows of the Levenshtein matrix over the first string. -/
def levRows (s2 : List Char) : List Char → List ℕ → List ℕ
  | [], prev => prev
  | c1 :: rest, prev =>
    let first := prev.headD 0 + 1
    levRows s2 rest (first :: levCells c1 s2 prev first)

/-- Classic dynamic-programming Levenshtein distance, as in the matrix loop of
calculateSimilarity. -/
def levenshtein (s1 s2 : List Char) : ℕ :=
  (levRows s2 s1 (List.range (s2.length + 1))).getLastD 0

/-- calculateSimilarity from parser.js: normalize both inputs, return 1 when
either contains the other, otherwise the scaled Levenshtein similarity. -/
def calculateSimilarity (str1 str2 : List Char) : ℚ :=
  let s1 := normalizeStringS str1
  let s2 := normalizeStringS str2
  if containsSub s1 s2 || containsSub s2 s1 then 1
  else
    let distance := levenshtein s1 s2
    let maxLength := max s1.length s2.length
    if maxLength = 0 then 1
    else ((maxLength : ℚ) - (distance : ℚ)) / (maxLength : ℚ)

/-! ### parser.js: findBestConjuntoMatch -/

/-- A catalog entry: group name plus the category it was listed under. -/
structure ConjMatch where
  name : List Char
  category : List Char
deriving DecidableEq

/-- The catalog, as the ordered entries of the configuration object: category
paired with its ordered list of group names. -/
abbrev Catalog := List (List Char × List (List Char))

/-- The (name, category) pairs of a catalog in the iteration order of the two
nested loops of findBestConjuntoMatch. -/
def catalogPairs (conjuntos : Catalog) : List (List Char × List Char) :=
  conjuntos.flatMap (fun p => p.2.map (fun n => (n, p.1)))

/-- Loop body of findBestConjuntoMatch: update the best score on a strict
improvement and record the entry when the score also reaches the threshold. -/
def fbcmStep {α β : Type} (sim : α → ℚ) (mk : α → β) (thr : ℚ)
    (st : Option β × ℚ) (p : α) : Option β × ℚ :=
  if sim p > st.2 then
    ((if sim p ≥ thr then some (mk p) else st.1), sim p)
  else st

/-- The fold of fbcmStep over a pair list. -/
def fbcmFold {α β : Type} (sim : α → ℚ) (mk : α → β) (thr : ℚ)
    (st : Option β × ℚ) (l : List α) : Option β × ℚ :=
  l.foldl (fbcmStep sim mk thr) st

/-- findBestConjuntoMatch from parser.js: falsy input returns null; otherwise
scan every (category, name) pair keeping the best similarity seen, returning
the recorded entry (null when the best score never reached the threshold). -/
def findBestConjuntoMatch (titlePart : List Char) (conjuntos : Catalog)
    (thr : ℚ) : Option ConjMatch :=
  if titlePart = [] then none
  else
    let ntp := normalizeStringS titlePart
    (fbcmFold (fun p => calculateSimilarity ntp (normalizeStringS p.1))
      (fun p => ConjMatch.mk p.1 p.2) thr (none, 0) (catalogPairs conjuntos)).1

/-! ### processor.js: getRoundPriority -/

/-- Truthiness of a nullable JS string: null, undefined and the empty string
are falsy. -/
def jsFalsyStr : Option (List Char) → Bool
  | none => true
  | some [] => true
  | some (_ :: _) => false

/-- getRoundPriority from processor.js. -/
def getRoundPriority (roundName : Option (List Char)) : ℕ :=
  if jsFalsyStr roundName then 0
  else if containsSub (normalizeStringS (roundName.getD []))
          ("liguilla".toList) then 3
  else if containsSub (normalizeStringS (roundName.getD []))
            ("segunda".toList) ||
          containsSub (normalizeStringS (roundName.getD []))
            ("2da".toList) then 2
  else if containsSub (normalizeStringS (roundName.getD []))
            ("primera".toList) ||
          containsSub (normalizeStringS (roundName.getD []))
            ("1ra".toList) ||
          containsSub (normalizeStringS (roundName.getD []))
            ("1era".toList) then 1
  else 0

/-! ### A small backtracking regex engine

Only the constructs used by the four patterns of parser.js are supported:
single-character classes, concatenation, alternation, a greedy optional, a
greedy and a lazy star over a character class, capturing groups, the word
boundary assertion and the end-of-input anchor.  Matching follows the JS
backtracking order (leftmost start position, left alternative first, greedy
longest first, lazy shortest first). -/

inductive RE where
  | eps
  | pred (p : Char → Bool)
  | cat (a b : RE)
  | alt (a b : RE)
  | opt (a : RE)
  | starG (p : Char → Bool)
  | starL (p : Char → Bool)
  | group (i : ℕ) (a : RE)
  | wordB
  | eos

/-- Captured substrings, keyed by group index (latest binding first). -/
abbrev Caps := List (ℕ × List Char)

/-- Record a capture. -/
def capSet (c : Caps) (i : ℕ) (v : List Char) : Caps := (i, v) :: c

/-- Look up a capture. -/
def capGet (c : Caps) (i : ℕ) : Option (List Char) :=
  (c.find? (fun p => p.1 = i)).map (fun p => p.2)

/-- Word character for the boundary assertion. -/
def isWordChar (c : Char) : Bool :=
  (48 ≤ c.toNat && c.toNat ≤ 57) || (65 ≤ c.toNat && c.toNat ≤ 90) ||
  (97 ≤ c.toNat && c.toNat ≤ 122) || c.toNat = 95

/-- Word test on the previous character, if any. -/
def isWordOpt : Option Char → Bool
  | none => false
  | some c => isWordChar c

/-- Word test on the next character, if any. -/
def isWordHead : List Char → Bool
  | [] => false
  | c :: _ => isWordChar c

/-- Greedy star: consume as many class characters as possible, giving back one
at a time when the continuation fails. -/
def greedyStar (p : Char → Bool)
    (k : Option Char → List Char → Caps → Option Caps) :
    Option Char → List Char → Caps → Option Caps
  | prev, [], caps => k prev [] caps
  | prev, c :: rest, caps =>
    if p c then
      match greedyStar p k (some c) rest caps with
      | some r => some r
      | none => k prev (c :: rest) caps
    else k prev (c :: rest) caps

/-- Lazy star: try the continuation first, consuming one more class character
only on failure. -/
def lazyStar (p : Char → Bool)
    (k : Option Char → List Char → Caps → Option Caps) :
    Option Char → List Char → Caps → Option Caps
  | prev, s, caps =>
    match k prev s caps with
    | some r => some r
    | none =>
      match s with
      | [] => none
      | c :: rest => if p c then lazyStar p k (some c) rest caps else none

/-- Backtracking matcher in continuation-passing style.  The continuation
receives the previous character, the remaining input and the captures. -/
def mrun : RE → Option Char → List Char → Caps →
    (Option Char → List Char → Caps → Option Caps) → Option Caps
  | .eps, prev, s, caps, k => k prev s caps
  | .pred p, _, s, caps, k =>
    match s with
    | [] => none
    | c :: rest => if p c then k (some c) rest caps else none
  | .cat a b, prev, s, caps, k =>
    mrun a prev s caps (fun pr2 s2 c2 => mrun b pr2 s2 c2 k)
  | .alt a b, prev, s, caps, k =>
    match mrun a prev s caps k with
    | some r => some r
    | none => mrun b prev s caps k
  | .opt a, prev, s, caps, k =>
    match mrun a prev s caps k with
    | some r => some r
    | none => k prev s caps
  | .starG p, prev, s, caps, k => greedyStar p k prev s caps
  | .starL p, prev, s, caps, k => lazyStar p k prev s caps
  | .group i a, prev, s, caps, k =>
    mrun a prev s caps (fun pr2 s2 c2 =>
      k pr2 s2 (capSet c2 i (s.take (s.length - s2.length))))
  | .wordB, prev, s, caps, k =>
    if isWordOpt prev != isWordHead s then k prev s caps else none
  | .eos, prev, s, caps, k =>
    match s with
    | [] => k prev s caps
    | _ :: _ => none

/-- Scan for the leftmost start position admitting a match. -/
def scanMatch (r : RE) : Option Char → List Char → Option Caps
  | prev, s =>
    match mrun r prev s [] (fun _ _ caps => some caps) with
    | some caps => some caps
    | none =>
      match s with
      | [] => none
      | c :: rest => scanMatch r (some c) rest

/-- Unanchored match, as String.prototype.match with a pattern without
anchors. -/
def jsMatch (r : RE) (s : List Char) : Option Caps := scanMatch r none s

/-- Anchored match, for a pattern of the shape caret ... dollar. -/
def jsMatchAnchored (r : RE) (s : List Char) : Option Caps :=
  mrun r none s [] (fun _ _ caps => some caps)

/-- Concatenate a list of regexes. -/
def reSeq (l : List RE) : RE := l.foldr RE.cat RE.eps

/-- Digit class. -/
def digB (c : Char) : Bool := 48 ≤ c.toNat && c.toNat ≤ 57

/-- Dot class: any character except a line terminator. -/
def dotB (c : Char) : Bool :=
  !(c.toNat = 10 || c.toNat = 13 || c.toNat = 8232 || c.toNat = 8233)

/-- ASCII lowercasing used for the case-insensitive flag. -/
def lowerAsciiNat (n : ℕ) : ℕ := if 65 ≤ n ∧ n ≤ 90 then n + 32 else n

/-- Case-insensitive single-character literal. -/
def ciCharB (c : Char) : Char → Bool :=
  fun x => lowerAsciiNat x.toNat = lowerAsciiNat c.toNat

/-- Case-insensitive literal word. -/
def ciLit (s : String) : RE :=
  reSeq (s.toList.map (fun c => RE.pred (ciCharB c)))

/-- Exact single character. -/
def chRE (c : Char) : RE := RE.pred (fun x => x = c)

/-- Greedy star over whitespace. -/
def wsStar : RE := RE.starG jsSpace

/-- The ordinal suffix alternation ta, ma, ra, da. -/
def sufAlt : RE :=
  RE.alt (ciLit "ta") (RE.alt (ciLit "ma") (RE.alt (ciLit "ra") (ciLit "da")))

/-- Regex of format 1 in parseVideoTitle (dated explicit format). -/
def re1 : RE :=
  reSeq [RE.opt (RE.group 1 (reSeq [RE.pred digB, RE.starG digB, sufAlt])),
    wsStar, ciLit "Etapa", wsStar,
    RE.group 2 (reSeq [RE.pred digB, RE.pred digB, RE.pred digB, RE.pred digB]),
    wsStar, chRE '-', wsStar,
    RE.group 3 (reSeq [RE.pred dotB, RE.starL dotB]),
    wsStar, chRE '-', wsStar,
    RE.group 4 (reSeq [RE.pred dotB, RE.starG dotB])]

/-- Regex of format 2 in parseVideoTitle (undated explicit format). -/
def re2 : RE :=
  reSeq [RE.group 1 (reSeq [RE.pred digB, RE.starG digB, sufAlt]),
    wsStar, ciLit "Etapa", wsStar, chRE '-', wsStar,
    RE.group 2 (reSeq [RE.pred dotB, RE.starL dotB]),
    wsStar, chRE '-', wsStar,
    RE.group 3 (reSeq [RE.pred dotB, RE.starG dotB])]

/-- Regex of format 3 in parseVideoTitle (anchored 2015 liguilla format). -/
def re3 : RE :=
  reSeq [RE.group 1 (RE.pred digB),
    RE.opt (RE.pred jsSpace), RE.opt (RE.pred (ciCharB 'a')),
    RE.opt (RE.pred jsSpace), ciLit "ETAPA",
    RE.pred jsSpace, wsStar,
    RE.group 2 (reSeq [RE.pred dotB, RE.starL dotB]),
    RE.pred jsSpace, wsStar,
    RE.group 3 (ciLit "LIGUILLA"), RE.eos]

/-- Year pattern of the general fallback, wrapped in group 0 so the whole
match can be read back. -/
def reYear : RE :=
  RE.group 0 (reSeq [RE.wordB,
    RE.alt (reSeq [chRE '1', chRE '9',
        RE.pred (fun c => c = '8' || c = '9'), RE.pred digB])
      (reSeq [chRE '2', chRE '0', RE.pred digB, RE.pred digB]),
    RE.wordB])

/-! ### parser.js: parseVideoTitle -/

/-- JS String.prototype.trim on the whitespace class. -/
def jsTrim (s : List Char) : List Char :=
  ((s.dropWhile jsSpace).reverse.dropWhile jsSpace).reverse

/-- Parse result of parseVideoTitle. -/
structure ParsedRec where
  year : Option (List Char)
  conjunto : Option ConjMatch
  round : Option (List Char)
  isAlternativeFormat : Bool
deriving DecidableEq

/-- The empty record returned on every failure path. -/
def emptyParsed : ParsedRec := ⟨none, none, none, false⟩

/-- The round keyword table of parseVideoTitle: normalized keyword paired with
the original display casing, in the insertion order of the source object. -/
def roundPairs : List (List Char × List Char) :=
  [("primerarueda".toList, "Primera Rueda".toList),
   ("1rarueda".toList, "1ra Rueda".toList),
   ("1erarueda".toList, "1era Rueda".toList),
   ("segundarueda".toList, "Segunda Rueda".toList),
   ("2darueda".toList, "2da Rueda".toList),
   ("liguilla".toList, "Liguilla".toList)]

/-- First round keyword contained in an already-normalized string, mapped to
its display form. -/
def findRoundKeyword (s : List Char) : Option (List Char) :=
  (roundPairs.find? (fun p => containsSub s p.1)).map (fun p => p.2)

/-- Exclusion filter at the top of parseVideoTitle: falsy titles, platform
placeholders, and the blacklist keywords. -/
def excludedTitle (title : List Char) : Bool :=
  title = [] ||
  listStartsWith title ("[Private video]".toList) ||
  listStartsWith title ("[Deleted video]".toList) ||
  (let n := normalizeStringS title
   containsSub n ("pruebadeadmision".toList) ||
   containsSub n ("desfile".toList) ||
   containsSub n ("llamadas".toList))

/-- Structural part of format 1: the regex matches and the round segment
contains a recognized round keyword.  Returns the year, the trimmed name
segment and the display round. -/
def format1Structural (title : List Char) :
    Option (List Char × List Char × List Char) :=
  match jsMatch re1 title with
  | none => none
  | some caps =>
    let matchedYear := (capGet caps 2).getD []
    let namePart := jsTrim ((capGet caps 3).getD [])
    let potentialRound := jsTrim ((capGet caps 4).getD [])
    match findRoundKeyword (normalizeStringS potentialRound) with
    | none => none
    | some display => some (matchedYear, namePart, display)

/-- Format 1 stage: structural match plus catalog resolution of the name
segment. -/
def format1Stage (title : List Char) (conjuntos : Catalog) : Option ParsedRec :=
  (format1Structural title).bind (fun t =>
    (findBestConjuntoMatch t.2.1 conjuntos (85/100)).map (fun cm =>
      ⟨some t.1, some cm, some t.2.2, true⟩))

/-- Structural part of format 2 (no year token). -/
def format2Structural (title : List Char) : Option (List Char × List Char) :=
  match jsMatch re2 title with
  | none => none
  | some caps =>
    let namePart := jsTrim ((capGet caps 2).getD [])
    let potentialRound := jsTrim ((capGet caps 3).getD [])
    match findRoundKeyword (normalizeStringS potentialRound) with
    | none => none
    | some display => some (namePart, display)

/-- Format 2 stage. -/
def format2Stage (title : List Char) (conjuntos : Catalog) : Option ParsedRec :=
  (format2Structural title).bind (fun t =>
    (findBestConjuntoMatch t.1 conjuntos (85/100)).map (fun cm =>
      ⟨none, some cm, some t.2, true⟩))

/-- Digit value of the single stage digit of format 3. -/
def digitVal (s : List Char) : ℕ :=
  match s with
  | [c] => c.toNat - 48
  | _ => 0

/-- Structural part of format 3: anchored regex match with a stage digit
between 1 and 6. -/
def format3Structural (title : List Char) : Option (List Char) :=
  match jsMatchAnchored re3 title with
  | none => none
  | some caps =>
    let etapa := (capGet caps 1).getD []
    let namePart := jsTrim ((capGet caps 2).getD [])
    if 1 ≤ digitVal etapa ∧ digitVal etapa ≤ 6 then some namePart else none

/-- Format 3 stage: on success the year is the fixed string 2015 and the round
is Liguilla. -/
def format3Stage (title : List Char) (conjuntos : Catalog) : Option ParsedRec :=
  (format3Structural title).bind (fun np =>
    (findBestConjuntoMatch np conjuntos (85/100)).map (fun cm =>
      ⟨some ("2015".toList), some cm, some ("Liguilla".toList), true⟩))

/-- The ordered cascade of the three specific formats; each later stage runs
only when no earlier stage fully succeeded. -/
def specificStages (title : List Char) (conjuntos : Catalog) :
    Option ParsedRec :=
  match format1Stage title conjuntos with
  | some r => some r
  | none =>
    match format2Stage title conjuntos with
    | some r => some r
    | none => format3Stage title conjuntos

/-- General fallback stage: catalog-match the whole title, then independently
look for a year token and a round keyword anywhere in the title. -/
def generalFallback (title : List Char) (conjuntos : Catalog) : ParsedRec :=
  match findBestConjuntoMatch title conjuntos (85/100) with
  | none => emptyParsed
  | some cm =>
    let year := (jsMatch reYear title).bind (fun caps => capGet caps 0)
    let round := findRoundKeyword (normalizeStringS title)
    ⟨year, some cm, round, false⟩

/-- parseVideoTitle from parser.js. -/
def parseVideoTitle (title : List Char) (conjuntos : Catalog) : ParsedRec :=
  if excludedTitle title then emptyParsed
  else
    match specificStages title conjuntos with
    | some r => r
    | none => generalFallback title conjuntos

/-! ### processor.js: the collection and selection passes of processChannel -/

/-- A flat-playlist entry as consumed by the collection pass. -/
structure Stub where
  id : List Char
  title : List Char
  url : List Char
deriving DecidableEq

/-- A collected candidate video (PotentialVideo in processor.js). -/
structure PotentialVideo where
  id : List Char
  url : List Char
  title : List Char
  year : List Char
  conjunto : ConjMatch
  round : Option (List Char)
  roundPriority : ℕ
  isDownloaded : Bool
deriving DecidableEq

/-- An entry appended to a tracking collection (only the identifying fields
are modelled). -/
structure TrackingEntry where
  id : List Char
  title : List Char
  url : List Char
deriving DecidableEq

/-- The nested JS Map of processChannel: years to group names to collected
candidates, both levels in insertion order. -/
abbrev GroupMap := List (List Char × List (List Char × List PotentialVideo))

/-- Insert into the inner map of one year, appending the video to its group
or appending a new group at the end. -/
def insertInYear (gm : List (List Char × List PotentialVideo))
    (g : List Char) (pv : PotentialVideo) :
    List (List Char × List PotentialVideo) :=
  match gm with
  | [] => [(g, [pv])]
  | (g0, vs) :: rest =>
    if g0 = g then (g0, vs ++ [pv]) :: rest
    else (g0, vs) :: insertInYear rest g pv

/-- Insert a collected video under its year and group name. -/
def insertPV (m : GroupMap) (y g : List Char) (pv : PotentialVideo) :
    GroupMap :=
  match m with
  | [] => [(y, [(g, [pv])])]
  | (y0, gm) :: rest =>
    if y0 = y then (y0, insertInYear gm g pv) :: rest
    else (y0, gm) :: insertPV rest y g pv

/-- State threaded through the collection pass: the grouped candidates, the
ignored tracking entries written so far, and the count of early-skipped
special titles. -/
structure CollectState where
  map : GroupMap
  ignored : List TrackingEntry
  skippedInvalid : ℕ
deriving DecidableEq

/-- One iteration of the collection loop of processChannel: skip special
titles, parse, resolve the effective year (a truthy forced year always wins),
record an ignored entry when conjunto or effective year is missing, and
otherwise store the candidate with its round priority and download status. -/
def collectStep (conjuntos : Catalog) (forcedYear : Option (List Char))
    (dset : List (List Char)) (st : CollectState) (stub : Stub) :
    CollectState :=
  if stub.title = [] ||
     listStartsWith stub.title ("[Private video]".toList) ||
     listStartsWith stub.title ("[Deleted video]".toList) then
    { st with skippedInvalid := st.skippedInvalid + 1 }
  else
    let parsedInfo := parseVideoTitle stub.title conjuntos
    let effectiveYear : Option (List Char) :=
      if !jsFalsyStr forcedYear then forcedYear
      else if jsFalsyStr parsedInfo.year then none
      else parsedInfo.year
    match parsedInfo.conjunto, effectiveYear, jsFalsyStr effectiveYear with
    | some conj, some y, false =>
      let pv : PotentialVideo :=
        { id := stub.id, url := stub.url, title := stub.title, year := y,
          conjunto := conj, round := parsedInfo.round,
          roundPriority := getRoundPriority parsedInfo.round,
          isDownloaded := decide (stub.id ∈ dset) }
      { st with map := insertPV st.map y conj.name pv }
    | _, _, _ =>
      { st with
        ignored := st.ignored ++
          [{ id := stub.id, title := stub.title, url := stub.url }] }

/-- The full collection pass (Pass 1). -/
def collectPass (stubs : List Stub) (conjuntos : Catalog)
    (forcedYear : Option (List Char)) (dset : List (List Char)) :
    CollectState :=
  stubs.foldl (collectStep conjuntos forcedYear dset) ⟨[], [], 0⟩

/-- The winner scan of Pass 2: start from the first candidate and replace it
only on a strictly higher round priority. -/
def pickWinner (v : PotentialVideo) (vs : List PotentialVideo) :
    PotentialVideo :=
  vs.foldl (fun best x =>
    if best.roundPriority < x.roundPriority then x else best) v

/-- Outcome of Pass 2 for one (year, group) bucket. -/
structure BucketOutcome where
  chosen : Option PotentialVideo
  skippedLower : List PotentialVideo
  skippedArchived : List PotentialVideo
deriving DecidableEq

/-- Pass 2 decision for one bucket: when the highest-priority candidate is
already downloaded the whole bucket is skipped; otherwise it is chosen and
the remaining members are logged as lower-priority skips. -/
def decideBucket (vids : List PotentialVideo) : BucketOutcome :=
  match vids with
  | [] => ⟨none, [], []⟩
  | v :: rest =>
    let w := pickWinner v rest
    if w.isDownloaded then
      ⟨none, [], vids.filter (fun x => !(x.id = w.id : Bool))⟩
    else
      ⟨some w, vids.filter (fun x => !(x.id = w.id : Bool)), []⟩

/-- Pass 2 over the whole grouped map, in iteration order. -/
def selectionPass (m : GroupMap) :
    List (List Char × List Char × BucketOutcome) :=
  m.flatMap (fun p => p.2.map (fun q => (p.1, q.1, decideBucket q.2)))

/-- The pure core of processChannel: collection pass followed by the
selection pass. -/
def processChannelPure (stubs : List Stub) (conjuntos : Catalog)
    (forcedYear : Option (List Char)) (dset : List (List Char)) :
    CollectState × List (List Char × List Char × BucketOutcome) :=
  let c := collectPass stubs conjuntos forcedYear dset
  (c, selectionPass c.map)

/-! ### state.js: tracking files and the download archive -/

/-- An element of a tracking JSON array: null, or an object with an optional
id string and an abstract payload distinguishing otherwise different
entries. -/
inductive JEntry where
  | jnull
  | jobj (id : Option (List Char)) (payload : ℕ)
deriving DecidableEq

/-- The id field of an entry, if any. -/
def entryId : JEntry → Option (List Char)
  | .jnull => none
  | .jobj i _ => i

/-- Parse outcome of a tracking file: an array, or any non-array JSON
value. -/
inductive JVal where
  | arr (xs : List JEntry)
  | prim
deriving DecidableEq

/-- State of a tracking file: missing, or present with the outcome of
readJson with throws disabled (none models unparseable or empty content,
which yields null). -/
inductive FileState where
  | missing
  | raw (parse : Option JVal)
deriving DecidableEq

/-- readTrackingJson from state.js: missing file, unparseable content and
non-array JSON all yield the empty list. -/
def readTrackingJson : FileState → List JEntry
  | .missing => []
  | .raw none => []
  | .raw (some .prim) => []
  | .raw (some (.arr xs)) => xs

/-- writeTrackingJson from state.js restricted to array data, which it always
writes. -/
def writeTrackingJson (data : List JEntry) : FileState :=
  .raw (some (.arr data))

/-- addTrackingEntry from state.js: read, push, write back. -/
def addTrackingEntry (fs : FileState) (e : JEntry) : FileState :=
  writeTrackingJson (readTrackingJson fs ++ [e])

/-- The filter test of removeTrackingEntryById: the entry exists and its id
is strictly equal to the target. -/
def matchesId (e : JEntry) (vid : List Char) : Bool :=
  match e with
  | .jnull => false
  | .jobj none _ => false
  | .jobj (some i) _ => i = vid

/-- removeTrackingEntryById from state.js: a falsy id is rejected up front;
otherwise matching entries are filtered out and the file is rewritten only
when something was removed. -/
def removeTrackingEntryById (fs : FileState) (vid : List Char) : FileState :=
  if vid = [] then fs
  else
    let entries := readTrackingJson fs
    let filteredEntries := entries.filter (fun e => !matchesId e vid)
    if filteredEntries.length < entries.length then
      writeTrackingJson filteredEntries
    else fs

/-- Split file content on the newline character, as String.prototype.split
with a newline separator. -/
def splitNl : List Char → List (List Char)
  | [] => [[]]
  | c :: rest =>
    if c = '\n' then [] :: splitNl rest
    else
      match splitNl rest with
      | l :: ls => (c :: l) :: ls
      | [] => [[c]]

/-- Split on runs of whitespace, as the split of getDownloadedSet applied to
an already-trimmed line: the empty string yields one empty token, any other
input its whitespace-separated tokens. -/
def wsTokens (s : List Char) : List (List Char) :=
  if s = [] then [[]]
  else (s.splitOnP jsSpace).filter (fun t => !(t = [] : Bool))

/-- Set insertion (JS Set.prototype.add). -/
def setAdd (acc : List (List Char)) (x : List Char) : List (List Char) :=
  if x ∈ acc then acc else acc ++ [x]

/-- Per-line step of getDownloadedSet: trim, split on whitespace, and when
the line has at least two tokens add the truthy last token to the set. -/
def downloadedLineStep (acc : List (List Char)) (line : List Char) :
    List (List Char) :=
  let parts := wsTokens (jsTrim line)
  if 2 ≤ parts.length then
    let potentialId := parts.getLastD []
    if potentialId = [] then acc else setAdd acc potentialId
  else acc

/-- getDownloadedSet from state.js, as a function of the archive file
content. -/
def getDownloadedSet (content : List Char) : List (List Char) :=
  (splitNl content).foldl downloadedLineStep []

/-! ## Proofs -/

attribute [local semireducible] Rat.mul Rat.add Rat.sub Rat.inv

set_option maxRecDepth 20000

/-! ### Normalization lemmas -/

theorem isLowerAlnum_bounds {c : Char} (h : isLowerAlnum c = true) :
    (97 ≤ c.toNat ∧ c.toNat ≤ 122) ∨ (48 ≤ c.toNat ∧ c.toNat ≤ 57) := by
  simp only [isLowerAlnum, Bool.or_eq_true, Bool.and_eq_true,
    decide_eq_true_eq] at h
  exact h

theorem jsToLowerChar_fixed {c : Char} (h : isLowerAlnum c = true) :
    jsToLowerChar c = c := by
  have hb := isLowerAlnum_bounds h
  unfold jsToLowerChar
  rw [if_neg (by omega), if_neg (by omega)]

theorem nfdChar_fixed {c : Char} (h : isLowerAlnum c = true) :
    nfdChar c = [c] := by
  have hb := isLowerAlnum_bounds h
  have hkeys : ∀ p ∈ nfdTable, 122 < p.1.toNat := by decide
  have hfind : nfdTable.find? (fun p => p.1 = c) = none := by
    rw [List.find?_eq_none]
    intro p hp hc
    have h1 := hkeys p hp
    have h2 : p.1 = c := by simpa using hc
    rw [h2] at h1
    omega
  simp [nfdChar, hfind]

theorem isCombining_false {c : Char} (h : isLowerAlnum c = true) :
    isCombining c = false := by
  have hb := isLowerAlnum_bounds h
  simp only [isCombining, Bool.and_eq_false_iff, decide_eq_false_iff_not]
  omega

theorem isAposOrSpace_false {c : Char} (h : isLowerAlnum c = true) :
    isAposOrSpace c = false := by
  have hb := isLowerAlnum_bounds h
  simp only [isAposOrSpace, jsSpace, jsSpaceNat, Bool.or_eq_false_iff,
    Bool.and_eq_false_iff, decide_eq_false_iff_not]
  omega

theorem map_jsToLowerChar_fixed {l : List Char}
    (h : ∀ c ∈ l, isLowerAlnum c = true) : l.map jsToLowerChar = l := by
  induction l with
  | nil => rfl
  | cons a t ih =>
    simp [jsToLowerChar_fixed (h a (List.mem_cons_self a t)),
      ih (fun c hc => h c (List.mem_cons_of_mem a hc))]

theorem flatMap_nfdChar_fixed {l : List Char}
    (h : ∀ c ∈ l, isLowerAlnum c = true) : l.flatMap nfdChar = l := by
  induction l with
  | nil => rfl
  | cons a t ih =>
    simp [List.flatMap_cons, nfdChar_fixed (h a (List.mem_cons_self a t)),
      ih (fun c hc => h c (List.mem_cons_of_mem a hc))]

theorem normalizeStringS_fixed {l : List Char}
    (h : ∀ c ∈ l, isLowerAlnum c = true) : normalizeStringS l = l := by
  unfold normalizeStringS
  rw [map_jsToLowerChar_fixed h, flatMap_nfdChar_fixed h]
  have h1 : l.filter (fun c => !isCombining c) = l :=
    List.filter_eq_self.mpr (fun c hc => by simp [isCombining_false (h c hc)])
  rw [h1]
  have h2 : l.filter (fun c => !isAposOrSpace c) = l :=
    List.filter_eq_self.mpr (fun c hc => by simp [isAposOrSpace_false (h c hc)])
  rw [h2]
  exact List.filter_eq_self.mpr h

theorem mem_normalizeStringS_lowerAlnum {s : List Char} :
    ∀ c ∈ normalizeStringS s, isLowerAlnum c = true := by
  intro c hc
  exact (List.mem_filter.mp hc).2

/-- C3: normalizeString is total, mapping non-string input to the empty
string, and idempotent on every input. -/
theorem c3_normalizeString_total_idempotent :
    normalizeString none = [] ∧
    ∀ x : Option (List Char),
      normalizeString (some (normalizeString x)) = normalizeString x := by
  refine ⟨rfl, fun x => ?_⟩
  cases x with
  | none => rfl
  | some s => exact normalizeStringS_fixed mem_normalizeStringS_lowerAlnum

/-! ### Substring and similarity lemmas -/

theorem containsSub_nil (l : List Char) : containsSub l [] = true := by
  induction l with
  | nil => rfl
  | cons a t ih => simp [containsSub, listStartsWith]

theorem calculateSimilarity_of_norm_empty {s1 s2 : List Char}
    (h : normalizeStringS s1 = [] ∨ normalizeStringS s2 = []) :
    calculateSimilarity s1 s2 = 1 := by
  have hor : (containsSub (normalizeStringS s1) (normalizeStringS s2) ||
      containsSub (normalizeStringS s2) (normalizeStringS s1)) = true := by
    rcases h with h | h
    · rw [h]
      cases hc : containsSub [] (normalizeStringS s2)
      · simp [containsSub_nil]
      · simp
    · rw [h]
      simp [containsSub_nil]
  simp only [calculateSimilarity, hor, if_true]

theorem fbcmFold_const_le {α β : Type} (sim : α → ℚ) (mk : α → β) (thr : ℚ) :
    ∀ (l : List α) (m : Option β) (s : ℚ), (∀ q ∈ l, sim q ≤ s) →
      fbcmFold sim mk thr (m, s) l = (m, s) := by
  intro l
  induction l with
  | nil => intro m s _; rfl
  | cons p t ih =>
    intro m s h
    have hp : ¬ (sim p > s) := not_lt.mpr (h p (List.mem_cons_self p t))
    simp only [fbcmFold, List.foldl_cons, fbcmStep, if_neg hp]
    exact ih m s (fun q hq => h q (List.mem_cons_of_mem p hq))

/-- C10: when either input normalizes to the empty string the similarity is 1,
and a non-empty title normalizing to empty makes findBestConjuntoMatch return
the first catalog entry. -/
theorem c10_empty_normalization_matches_first :
    (∀ s1 s2 : List Char,
      normalizeStringS s1 = [] ∨ normalizeStringS s2 = [] →
      calculateSimilarity s1 s2 = 1) ∧
    (∀ (title : List Char) (conjuntos : Catalog)
      (p : List Char × List Char) (rest : List (List Char × List Char)),
      title ≠ [] → normalizeStringS title = [] →
      catalogPairs conjuntos = p :: rest →
      findBestConjuntoMatch title conjuntos (85/100) =
        some (ConjMatch.mk p.1 p.2)) := by
  refine ⟨fun s1 s2 h => calculateSimilarity_of_norm_empty h, ?_⟩
  intro title conjuntos p rest hne hnorm hpairs
  have hsim : ∀ q : List Char × List Char,
      calculateSimilarity (normalizeStringS title) (normalizeStringS q.1) = 1 := by
    intro q
    apply calculateSimilarity_of_norm_empty
    left
    rw [hnorm]
    rfl
  unfold findBestConjuntoMatch
  rw [if_neg hne, hpairs]
  simp only [fbcmFold, List.foldl_cons, fbcmStep, hsim p]
  rw [if_pos (by norm_num), if_pos (by norm_num)]
  have := fbcmFold_const_le
    (fun q : List Char × List Char =>
      calculateSimilarity (normalizeStringS title) (normalizeStringS q.1))
    (fun q => ConjMatch.mk q.1 q.2) (85/100) rest
    (some (ConjMatch.mk p.1 p.2)) 1 (fun q _ => le_of_eq (hsim q))
  simpa [fbcmFold] using congrArg Prod.fst this

/-! ### Characterization of the best-match fold (claim C4) -/

/-- C10 witness: a punctuation-only title scores 1 against a catalog name and
selects the first catalog entry. -/
theorem c10_witness :
    calculateSimilarity ("!?!".toList) ("Agarrate Catalina".toList) = 1 ∧
    findBestConjuntoMatch ("!?!".toList)
      [("Murgas".toList, ["Agarrate Catalina".toList, "Falta y Resto".toList]),
       ("Comparsas".toList, ["Yambo Kenia".toList])] (85/100) =
      some (ConjMatch.mk ("Agarrate Catalina".toList) ("Murgas".toList)) :=
  ⟨c10_empty_normalization_matches_first.1 ("!?!".toList)
      ("Agarrate Catalina".toList) (Or.inl (by decide)),
   c10_empty_normalization_matches_first.2 ("!?!".toList)
     [("Murgas".toList, ["Agarrate Catalina".toList, "Falta y Resto".toList]),
      ("Comparsas".toList, ["Yambo Kenia".toList])]
     ("Agarrate Catalina".toList, "Murgas".toList)
     [("Falta y Resto".toList, "Murgas".toList),
      ("Yambo Kenia".toList, "Comparsas".toList)]
     (by decide) (by decide) (by decide)⟩

theorem le_foldl_max (l : List ℚ) : ∀ a : ℚ, a ≤ l.foldl max a := by
  induction l with
  | nil => intro a; exact le_refl a
  | cons x t ih =>
    intro a
    exact le_trans (le_max_left a x) (ih (max a x))

/-- Full characterization of the scan of findBestConjuntoMatch from an
arbitrary starting state: the final score is the running maximum, and the
recorded entry is the first pair attaining it whenever the maximum strictly
improved on the start and reached the threshold. -/
theorem fbcmFold_spec {α β : Type} (sim : α → ℚ) (mk : α → β) (thr : ℚ) :
    ∀ (l : List α) (m₀ : Option β) (s₀ : ℚ),
      (fbcmFold sim mk thr (m₀, s₀) l).2 = (l.map sim).foldl max s₀ ∧
      ((fbcmFold sim mk thr (m₀, s₀) l).2 = s₀ →
        (fbcmFold sim mk thr (m₀, s₀) l).1 = m₀) ∧
      (s₀ < (fbcmFold sim mk thr (m₀, s₀) l).2 →
        thr ≤ (fbcmFold sim mk thr (m₀, s₀) l).2 →
        (fbcmFold sim mk thr (m₀, s₀) l).1 =
          (l.find? (fun p =>
            decide ((fbcmFold sim mk thr (m₀, s₀) l).2 ≤ sim p))).map mk) ∧
      (s₀ < (fbcmFold sim mk thr (m₀, s₀) l).2 →
        (fbcmFold sim mk thr (m₀, s₀) l).2 < thr →
        (fbcmFold sim mk thr (m₀, s₀) l).1 = m₀) := by
  intro l
  induction l with
  | nil =>
    intro m₀ s₀
    refine ⟨rfl, fun _ => rfl, fun h1 _ => absurd h1 (lt_irrefl s₀), ?_⟩
    exact fun h1 _ => absurd h1 (lt_irrefl s₀)
  | cons p t ih =>
    intro m₀ s₀
    by_cases hgt : sim p > s₀
    · have hstep : fbcmFold sim mk thr (m₀, s₀) (p :: t) =
          fbcmFold sim mk thr
            ((if sim p ≥ thr then some (mk p) else m₀), sim p) t := by
        simp [fbcmFold, fbcmStep, if_pos hgt]
      set m₁ : Option β := if sim p ≥ thr then some (mk p) else m₀ with hm₁
      obtain ⟨ih1, ih2, ih3, ih4⟩ := ih m₁ (sim p)
      have hsle : sim p ≤ (fbcmFold sim mk thr (m₁, sim p) t).2 := by
        rw [ih1]; exact le_foldl_max _ _
      refine ⟨?_, ?_, ?_, ?_⟩
      · rw [hstep, ih1]
        simp [max_eq_right (le_of_lt hgt)]
      · intro h
        rw [hstep] at h
        exact absurd (lt_of_lt_of_le hgt (h ▸ hsle)) (lt_irrefl s₀)
      · intro _ hthr
        rw [hstep] at hthr ⊢
        rcases eq_or_lt_of_le hsle with heq | hlt
        · have h1 := ih2 heq.symm
          have hth2 : thr ≤ sim p := heq ▸ hthr
          have hfind : (p :: t).find?
              (fun q => decide ((fbcmFold sim mk thr (m₁, sim p) t).2 ≤ sim q)) =
              some p :=
            List.find?_cons_of_pos _ (by simp [← heq])
          rw [h1, hfind, hm₁, if_pos hth2]
          rfl
        · have h1 := ih3 hlt hthr
          have hfind : (p :: t).find?
              (fun q => decide ((fbcmFold sim mk thr (m₁, sim p) t).2 ≤ sim q)) =
              t.find? (fun q =>
                decide ((fbcmFold sim mk thr (m₁, sim p) t).2 ≤ sim q)) :=
            List.find?_cons_of_neg _ (by simp [not_le.mpr hlt])
          rw [h1, hfind]
      · intro _ hthr
        rw [hstep] at hthr ⊢
        have hm₀ : m₁ = m₀ := by
          rw [hm₁, if_neg (not_le.mpr (lt_of_le_of_lt hsle hthr))]
        rcases eq_or_lt_of_le hsle with heq | hlt
        · rw [ih2 heq.symm, hm₀]
        · rw [ih4 hlt hthr, hm₀]
    · have hstep : fbcmFold sim mk thr (m₀, s₀) (p :: t) =
          fbcmFold sim mk thr (m₀, s₀) t := by
        simp [fbcmFold, fbcmStep, if_neg hgt]
      obtain ⟨ih1, ih2, ih3, ih4⟩ := ih m₀ s₀
      refine ⟨?_, ?_, ?_, ?_⟩
      · rw [hstep, ih1]
        simp [max_eq_left (not_lt.mp hgt)]
      · intro h; rw [hstep] at h ⊢; exact ih2 h
      · intro hs hthr
        rw [hstep] at hs hthr ⊢
        have hfind : (p :: t).find?
            (fun q => decide ((fbcmFold sim mk thr (m₀, s₀) t).2 ≤ sim q)) =
            t.find? (fun q =>
              decide ((fbcmFold sim mk thr (m₀, s₀) t).2 ≤ sim q)) :=
          List.find?_cons_of_neg _
            (by simp [not_le.mpr (lt_of_le_of_lt (not_lt.mp hgt) hs)])
        rw [ih3 hs hthr, hfind]
      · intro hs hthr
        rw [hstep] at hs hthr ⊢
        exact ih4 hs hthr

/-- Spec-side measure: the maximum similarity reached over all catalog pairs
(0 for an empty catalog). -/
def maxSimilarity (titlePart : List Char) (conjuntos : Catalog) : ℚ :=
  ((catalogPairs conjuntos).map (fun p =>
    calculateSimilarity (normalizeStringS titlePart)
      (normalizeStringS p.1))).foldl max 0

/-- Spec-side measure: the first catalog pair attaining the maximum
similarity, in catalog iteration order. -/
def firstMaxEntry (titlePart : List Char) (conjuntos : Catalog) :
    Option ConjMatch :=
  ((catalogPairs conjuntos).find? (fun p =>
    decide (maxSimilarity titlePart conjuntos ≤
      calculateSimilarity (normalizeStringS titlePart)
        (normalizeStringS p.1)))).map (fun p => ConjMatch.mk p.1 p.2)

/-- C4 (amended): for a non-empty text fragment and a positive threshold,
findBestConjuntoMatch returns the first entry attaining the maximum
similarity exactly when that maximum reaches the threshold, and null
otherwise. -/
theorem c4_findBestConjuntoMatch_amended :
    ∀ (titlePart : List Char) (conjuntos : Catalog) (thr : ℚ),
      titlePart ≠ [] → 0 < thr →
      (thr ≤ maxSimilarity titlePart conjuntos →
        findBestConjuntoMatch titlePart conjuntos thr =
          firstMaxEntry titlePart conjuntos) ∧
      (maxSimilarity titlePart conjuntos < thr →
        findBestConjuntoMatch titlePart conjuntos thr = none) := by
  intro titlePart conjuntos thr hne hpos
  set F := fbcmFold (fun p : List Char × List Char =>
      calculateSimilarity (normalizeStringS titlePart) (normalizeStringS p.1))
    (fun p => ConjMatch.mk p.1 p.2) thr (none, 0) (catalogPairs conjuntos)
    with hFdef
  have hfb : findBestConjuntoMatch titlePart conjuntos thr = F.1 := by
    rw [hFdef]
    simp [findBestConjuntoMatch, if_neg hne]
  obtain ⟨h1, h2, h3, h4⟩ := fbcmFold_spec
    (fun p : List Char × List Char =>
      calculateSimilarity (normalizeStringS titlePart) (normalizeStringS p.1))
    (fun p => ConjMatch.mk p.1 p.2) thr (catalogPairs conjuntos) none 0
  have hmax : F.2 = maxSimilarity titlePart conjuntos := h1
  have hge : (0 : ℚ) ≤ F.2 := by
    rw [h1]
    exact le_foldl_max _ 0
  constructor
  · intro hthr
    have hs : (0 : ℚ) < F.2 := by
      rw [hmax]; exact lt_of_lt_of_le hpos hthr
    rw [hfb, h3 hs (by rw [hmax]; exact hthr)]
    unfold firstMaxEntry
    rw [hmax]
  · intro hthr
    rcases eq_or_lt_of_le hge with heq | hlt
    · rw [hfb, h2 heq.symm]
    · rw [hfb, h4 hlt (by rw [hmax]; exact hthr)]

/-! ### Concrete example inputs -/

/-- A small concrete catalog used by witnesses and counterexamples. -/
def exCatalog : Catalog :=
  [("Murgas".toList, ["Agarrate Catalina".toList, "Falta y Resto".toList]),
   ("Comparsas".toList, ["Yambo Kenia".toList])]

/-- A one-name catalog whose only name shares nothing with the letter q. -/
def exCatZ : Catalog := [("C".toList, ["z".toList])]

/-- C4 (counterexample): an empty text fragment is rejected up front although
the maximum similarity is 1 and exceeds the default threshold, and with a
zero threshold a zero maximum also satisfies the stated condition while null
is returned. -/
theorem c4_counterexample :
    (findBestConjuntoMatch [] exCatalog (85/100) = none ∧
      maxSimilarity [] exCatalog = 1) ∧
    (findBestConjuntoMatch ("q".toList) exCatZ 0 = none ∧
      maxSimilarity ("q".toList) exCatZ = 0) := by decide

/-- C4 witness: the amended theorem applied at a concrete fragment whose
maximum similarity reaches the threshold. -/
theorem c4_witness :
    findBestConjuntoMatch ("Agarrate  Catalina!".toList) exCatalog (85/100) =
      some (ConjMatch.mk ("Agarrate Catalina".toList) ("Murgas".toList)) :=
  ((c4_findBestConjuntoMatch_amended ("Agarrate  Catalina!".toList) exCatalog
      (85/100) (by decide) (by decide)).1 (by decide)).trans (by decide)

/-! ### Claim C5: specific stages fall through to the general fallback -/

/-- C5: whichever specific stage of the cascade matches structurally (regex
and round test succeed) while its name segment fails the catalog match at
threshold 0.85, parseVideoTitle does not abort with the empty record at that
stage: the remaining stages still run and, when none fully succeeds, the
general fallback is attempted on the same title.  The three conjuncts cover a
failure at format 1, at format 2 (once format 1 yielded nothing), and at
format 3 (once formats 1 and 2 yielded nothing). -/
theorem c5_structural_failure_falls_through :
    ∀ (title : List Char) (conjuntos : Catalog),
      excludedTitle title = false →
      (∀ y np rd, format1Structural title = some (y, np, rd) →
        findBestConjuntoMatch np conjuntos (85/100) = none →
        parseVideoTitle title conjuntos =
          (match format2Stage title conjuntos with
           | some r => r
           | none =>
             match format3Stage title conjuntos with
             | some r => r
             | none => generalFallback title conjuntos)) ∧
      (∀ np rd, format1Stage title conjuntos = none →
        format2Structural title = some (np, rd) →
        findBestConjuntoMatch np conjuntos (85/100) = none →
        parseVideoTitle title conjuntos =
          (match format3Stage title conjuntos with
           | some r => r
           | none => generalFallback title conjuntos)) ∧
      (∀ np, format1Stage title conjuntos = none →
        format2Stage title conjuntos = none →
        format3Structural title = some np →
        findBestConjuntoMatch np conjuntos (85/100) = none →
        parseVideoTitle title conjuntos = generalFallback title conjuntos) := by
  intro title conjuntos hexc
  refine ⟨?_, ?_, ?_⟩
  · intro y np rd h1 h2
    have hs1 : format1Stage title conjuntos = none := by
      simp [format1Stage, h1, h2]
    rcases hf2 : format2Stage title conjuntos with _ | r
    · rcases hf3 : format3Stage title conjuntos with _ | r
      · simp [parseVideoTitle, hexc, specificStages, hs1, hf2, hf3]
      · simp [parseVideoTitle, hexc, specificStages, hs1, hf2, hf3]
    · simp [parseVideoTitle, hexc, specificStages, hs1, hf2]
  · intro np rd hs1 h1 h2
    have hs2 : format2Stage title conjuntos = none := by
      simp [format2Stage, h1, h2]
    rcases hf3 : format3Stage title conjuntos with _ | r
    · simp [parseVideoTitle, hexc, specificStages, hs1, hs2, hf3]
    · simp [parseVideoTitle, hexc, specificStages, hs1, hs2, hf3]
  · intro np hs1 hs2 h1 h2
    have hs3 : format3Stage title conjuntos = none := by
      simp [format3Stage, h1, h2]
    simp [parseVideoTitle, hexc, specificStages, hs1, hs2, hs3]

/-- The concrete title of the C5 witness for a format 1 structural match:
the name segment Zzz is not in the catalog, but the fallback resolves the
full record. -/
def exTitle5 : List Char :=
  "4ta Etapa 2019 - Zzz - Primera Rueda Agarrate Catalina".toList

/-- C5 witness title for a format 2 structural match (no year token): the
name segment Zzz fails the catalog, the fallback resolves everything. -/
def exTitle5b : List Char :=
  "4ta Etapa - Zzz - Liguilla Agarrate Catalina 2011".toList

/-- C5 witness title for a format 3 structural match: the name segment ZZZ
fails the catalog, and the general fallback is still attempted. -/
def exTitle5c : List Char := "3A ETAPA ZZZ LIGUILLA".toList

/-- C5 witness: a catalog failure at each of the three specific stages falls
through, and at formats 1 and 2 the fallback still produces a fully resolved
record from the same title. -/
theorem c5_witness :
    (parseVideoTitle exTitle5 exCatalog =
      ⟨some ("2019".toList),
       some (ConjMatch.mk ("Agarrate Catalina".toList) ("Murgas".toList)),
       some ("Primera Rueda".toList), false⟩) ∧
    (parseVideoTitle exTitle5b exCatalog =
      ⟨some ("2011".toList),
       some (ConjMatch.mk ("Agarrate Catalina".toList) ("Murgas".toList)),
       some ("Liguilla".toList), false⟩) ∧
    (parseVideoTitle exTitle5c exCatalog =
      generalFallback exTitle5c exCatalog) :=
  ⟨((c5_structural_failure_falls_through exTitle5 exCatalog (by decide)).1
      ("2019".toList) ("Zzz".toList) ("Primera Rueda".toList)
      (by decide) (by decide)).trans (by decide),
   ((c5_structural_failure_falls_through exTitle5b exCatalog (by decide)).2.1
      ("Zzz".toList) ("Liguilla".toList)
      (by decide) (by decide) (by decide)).trans (by decide),
   (c5_structural_failure_falls_through exTitle5c exCatalog (by decide)).2.2
      ("ZZZ".toList) (by decide) (by decide) (by decide) (by decide)⟩

/-! ### Claim C6: round priorities -/

/-- C6: getRoundPriority classifies by normalized substring containment into
the total order none 0, primera 1, segunda 2, liguilla 3, with absent and
unrecognized labels at 0. -/
theorem c6_getRoundPriority_spec :
    getRoundPriority none = 0 ∧ getRoundPriority (some []) = 0 ∧
    ∀ s : List Char,
      getRoundPriority (some s) ≤ 3 ∧
      (containsSub (normalizeStringS s) ("liguilla".toList) = true →
        getRoundPriority (some s) = 3) ∧
      (containsSub (normalizeStringS s) ("liguilla".toList) = false →
        (containsSub (normalizeStringS s) ("segunda".toList) = true ∨
         containsSub (normalizeStringS s) ("2da".toList) = true) →
        getRoundPriority (some s) = 2) ∧
      (containsSub (normalizeStringS s) ("liguilla".toList) = false →
        containsSub (normalizeStringS s) ("segunda".toList) = false →
        containsSub (normalizeStringS s) ("2da".toList) = false →
        (containsSub (normalizeStringS s) ("primera".toList) = true ∨
         containsSub (normalizeStringS s) ("1ra".toList) = true ∨
         containsSub (normalizeStringS s) ("1era".toList) = true) →
        getRoundPriority (some s) = 1) ∧
      (containsSub (normalizeStringS s) ("liguilla".toList) = false →
        containsSub (normalizeStringS s) ("segunda".toList) = false →
        containsSub (normalizeStringS s) ("2da".toList) = false →
        containsSub (normalizeStringS s) ("primera".toList) = false →
        containsSub (normalizeStringS s) ("1ra".toList) = false →
        containsSub (normalizeStringS s) ("1era".toList) = false →
        getRoundPriority (some s) = 0) := by
  refine ⟨rfl, rfl, fun s => ?_⟩
  cases s with
  | nil => exact ⟨by decide, by decide, by decide, by decide, by decide⟩
  | cons c t =>
    have hform : getRoundPriority (some (c :: t)) =
        (if containsSub (normalizeStringS (c :: t)) ("liguilla".toList) then 3
         else if containsSub (normalizeStringS (c :: t)) ("segunda".toList) ||
                 containsSub (normalizeStringS (c :: t)) ("2da".toList) then 2
         else if containsSub (normalizeStringS (c :: t)) ("primera".toList) ||
                 containsSub (normalizeStringS (c :: t)) ("1ra".toList) ||
                 containsSub (normalizeStringS (c :: t)) ("1era".toList) then 1
         else 0) := rfl
    rw [hform]
    refine ⟨?_, ?_, ?_, ?_, ?_⟩
    · split_ifs <;> omega
    · intro h; rw [if_pos h]
    · intro h hor
      rw [if_neg (fun hh => Bool.false_ne_true (h.symm.trans hh))]
      rw [if_pos (by
        rcases hor with h2 | h2 <;>
          simp only [h2, Bool.true_or, Bool.or_true])]
    · intro h h2 h3 hor
      rw [if_neg (fun hh => Bool.false_ne_true (h.symm.trans hh))]
      rw [if_neg (by
        simp only [h2, h3, Bool.or_false]
        exact Bool.false_ne_true)]
      rw [if_pos (by
        rcases hor with h4 | h4 | h4 <;>
          simp only [h4, Bool.true_or, Bool.or_true])]
    · intro h h2 h3 h4 h5 h6
      rw [if_neg (fun hh => Bool.false_ne_true (h.symm.trans hh))]
      rw [if_neg (by
        simp only [h2, h3, Bool.or_false]
        exact Bool.false_ne_true)]
      rw [if_neg (by
        simp only [h4, h5, h6, Bool.or_false]
        exact Bool.false_ne_true)]

/-- C6 witness: the theorem applied to a suffixed liguilla label. -/
theorem c6_witness : getRoundPriority (some ("LIGUILLA 2015".toList)) = 3 :=
  (c6_getRoundPriority_spec.2.2 ("LIGUILLA 2015".toList)).2.1 (by decide)

/-! ### Winner selection lemmas (claims C1 and C2) -/

theorem pickWinner_cons (v x : PotentialVideo) (t : List PotentialVideo) :
    pickWinner v (x :: t) =
      pickWinner (if v.roundPriority < x.roundPriority then x else v) t := rfl

theorem pickWinner_mem : ∀ (vs : List PotentialVideo) (v : PotentialVideo),
    pickWinner v vs ∈ v :: vs := by
  intro vs
  induction vs with
  | nil => intro v; exact List.mem_cons_self v []
  | cons x t ih =>
    intro v
    rw [pickWinner_cons]
    by_cases hvx : v.roundPriority < x.roundPriority
    · rw [if_pos hvx]
      rcases List.mem_cons.mp (ih x) with h | h
      · rw [h]; exact List.mem_cons_of_mem v (List.mem_cons_self x t)
      · exact List.mem_cons_of_mem v (List.mem_cons_of_mem x h)
    · rw [if_neg hvx]
      rcases List.mem_cons.mp (ih v) with h | h
      · rw [h]; exact List.mem_cons_self v (x :: t)
      · exact List.mem_cons_of_mem v (List.mem_cons_of_mem x h)

theorem pickWinner_le : ∀ (vs : List PotentialVideo) (v x : PotentialVideo),
    x ∈ v :: vs → x.roundPriority ≤ (pickWinner v vs).roundPriority := by
  intro vs
  induction vs with
  | nil =>
    intro v x hx
    rcases List.mem_cons.mp hx with h | h
    · rw [h]; exact le_refl _
    · exact absurd h (List.not_mem_nil x)
  | cons y t ih =>
    intro v x hx
    rw [pickWinner_cons]
    by_cases hvy : v.roundPriority < y.roundPriority
    · rw [if_pos hvy]
      rcases List.mem_cons.mp hx with h | h
      · rw [h]
        exact le_trans (le_of_lt hvy) (ih y y (List.mem_cons_self y t))
      · exact ih y x h
    · rw [if_neg hvy]
      rcases List.mem_cons.mp hx with h | h
      · rw [h]; exact ih v v (List.mem_cons_self v t)
      · rcases List.mem_cons.mp h with h2 | h2
        · rw [h2]
          exact le_trans (not_lt.mp hvy) (ih v v (List.mem_cons_self v t))
        · exact ih v x (List.mem_cons_of_mem v h2)

theorem pickWinner_first : ∀ (vs : List PotentialVideo) (v : PotentialVideo),
    (v :: vs).find? (fun x =>
      decide ((pickWinner v vs).roundPriority ≤ x.roundPriority)) =
      some (pickWinner v vs) := by
  intro vs
  induction vs with
  | nil =>
    intro v
    exact List.find?_cons_of_pos _ (by simp [pickWinner])
  | cons y t ih =>
    intro v
    rw [pickWinner_cons]
    by_cases hvy : v.roundPriority < y.roundPriority
    · rw [if_pos hvy]
      have hyw : y.roundPriority ≤ (pickWinner y t).roundPriority :=
        pickWinner_le t y y (List.mem_cons_self y t)
      have hneg : ¬ ((pickWinner y t).roundPriority ≤ v.roundPriority) := by
        omega
      rw [List.find?_cons_of_neg _ (by simpa using hneg)]
      exact ih y
    · rw [if_neg hvy]
      have ihv := ih v
      by_cases hp : (pickWinner v t).roundPriority ≤ v.roundPriority
      · rw [List.find?_cons_of_pos _ (by simpa using hp)] at ihv
        rw [List.find?_cons_of_pos _ (by simpa using hp)]
        exact ihv
      · rw [List.find?_cons_of_neg _ (by simpa using hp)] at ihv
        rw [List.find?_cons_of_neg _ (by simpa using hp)]
        have hyneg : ¬ ((pickWinner v t).roundPriority ≤ y.roundPriority) := by
          have := not_lt.mp hvy
          omega
        rw [List.find?_cons_of_neg _ (by simpa using hyneg)]
        exact ihv

/-- Spec-side measure: maximum round priority in a bucket. -/
def maxPrio (l : List PotentialVideo) : ℕ :=
  (l.map (fun v => v.roundPriority)).foldl max 0

/-- Spec-side measure: the first bucket member attaining the maximum round
priority, in first-seen order. -/
def specWinner (l : List PotentialVideo) : Option PotentialVideo :=
  l.find? (fun x => decide (maxPrio l ≤ x.roundPriority))

theorem foldl_max_eq_pick : ∀ (vs : List PotentialVideo) (v : PotentialVideo),
    (vs.map (fun x => x.roundPriority)).foldl max v.roundPriority =
      (pickWinner v vs).roundPriority := by
  intro vs
  induction vs with
  | nil => intro v; rfl
  | cons y t ih =>
    intro v
    rw [pickWinner_cons]
    by_cases hvy : v.roundPriority < y.roundPriority
    · rw [if_pos hvy]
      have : max v.roundPriority y.roundPriority = y.roundPriority :=
        max_eq_right (le_of_lt hvy)
      simpa [this] using ih y
    · rw [if_neg hvy]
      have : max v.roundPriority y.roundPriority = v.roundPriority :=
        max_eq_left (not_lt.mp hvy)
      simpa [this] using ih v

theorem maxPrio_cons (v : PotentialVideo) (vs : List PotentialVideo) :
    maxPrio (v :: vs) = (pickWinner v vs).roundPriority := by
  unfold maxPrio
  rw [List.map_cons, List.foldl_cons, Nat.max_comm, Nat.max_zero]
  exact foldl_max_eq_pick vs v

theorem specWinner_eq_pick (v : PotentialVideo) (vs : List PotentialVideo) :
    specWinner (v :: vs) = some (pickWinner v vs) := by
  unfold specWinner
  rw [maxPrio_cons]
  exact pickWinner_first vs v

/-! ### Claim C1 -/

/-- C1 (counterexample): a two-candidate bucket with priorities 1 and 3 picks
the liguilla candidate, but the lower-priority sibling is only skipped; no
ignored TrackingEntry at all is written by the run, so the loser is not
recorded. -/
def exStubA : Stub :=
  ⟨"idAAAAAAAAA".toList,
   "4ta Etapa 2019 - Agarrate Catalina - Primera Rueda".toList,
   "uA".toList⟩

/-- Second stub of the C1 counterexample, the liguilla recording. -/
def exStubB : Stub :=
  ⟨"idBBBBBBBBB".toList,
   "4ta Etapa 2019 - Agarrate Catalina - Liguilla".toList,
   "uB".toList⟩

/-- C1 (counterexample): the winner is chosen, the loser is skipped, and the
ignored tracking collection stays empty, contradicting the claim that every
losing bucket member is recorded as an ignored TrackingEntry. -/
theorem c1_counterexample :
    ((processChannelPure [exStubA, exStubB] exCatalog none []).2.map
        (fun t => ((t.2.2.chosen.map (fun v => v.id)),
          t.2.2.skippedLower.map (fun v => v.id)))) =
      [(some ("idBBBBBBBBB".toList), ["idAAAAAAAAA".toList])] ∧
    (processChannelPure [exStubA, exStubB] exCatalog none []).1.ignored = [] := by
  constructor
  · decide
  · decide

/-- C1 (amended): the selection pass picks the first-seen candidate of
maximum round priority; when it is not archived it is chosen and every other
bucket member goes to the lower-priority skip list only, and the ignored
tracking entries of a whole run are exactly those written by the collection
pass. -/
theorem c1_selection_amended :
    (∀ (v : PotentialVideo) (vs : List PotentialVideo),
      specWinner (v :: vs) = some (pickWinner v vs)) ∧
    (∀ (v : PotentialVideo) (vs : List PotentialVideo),
      (pickWinner v vs).isDownloaded = false →
      (decideBucket (v :: vs)).chosen = some (pickWinner v vs) ∧
      (decideBucket (v :: vs)).skippedLower =
        (v :: vs).filter
          (fun x => !(x.id = (pickWinner v vs).id : Bool)) ∧
      (decideBucket (v :: vs)).skippedArchived = []) ∧
    (∀ (stubs : List Stub) (conjuntos : Catalog)
      (forcedYear : Option (List Char)) (dset : List (List Char)),
      (processChannelPure stubs conjuntos forcedYear dset).1.ignored =
        (collectPass stubs conjuntos forcedYear dset).ignored) := by
  refine ⟨specWinner_eq_pick, ?_, fun _ _ _ _ => rfl⟩
  intro v vs hdl
  simp [decideBucket, hdl]

/-- C1 witness: the amended selection behavior at a concrete two-candidate
bucket. -/
def c1vA : PotentialVideo :=
  ⟨"idAAAAAAAAA".toList, "uA".toList,
   "4ta Etapa 2019 - Agarrate Catalina - Primera Rueda".toList,
   "2019".toList,
   ConjMatch.mk ("Agarrate Catalina".toList) ("Murgas".toList),
   some ("Primera Rueda".toList), 1, false⟩

/-- The liguilla candidate of the C1 witness bucket. -/
def c1vB : PotentialVideo :=
  ⟨"idBBBBBBBBB".toList, "uB".toList,
   "4ta Etapa 2019 - Agarrate Catalina - Liguilla".toList,
   "2019".toList,
   ConjMatch.mk ("Agarrate Catalina".toList) ("Murgas".toList),
   some ("Liguilla".toList), 3, false⟩

/-- C1 witness: the amended theorem applied to the concrete bucket. -/
theorem c1_witness :
    (decideBucket [c1vA, c1vB]).chosen = some c1vB :=
  ((c1_selection_amended.2.1 c1vA [c1vB] (by decide)).1).trans (by decide)

/-! ### Claim C2 -/

/-- Invariant tying the stored download flag of a candidate to membership of
its id in the archive set. -/
def pvOK (dset : List (List Char)) (pv : PotentialVideo) : Prop :=
  pv.isDownloaded = decide (pv.id ∈ dset)

/-- The invariant over a whole grouped map. -/
def mapOK (dset : List (List Char)) (m : GroupMap) : Prop :=
  ∀ p ∈ m, ∀ q ∈ p.2, ∀ pv ∈ q.2, pvOK dset pv

theorem insertInYear_ok {dset : List (List Char)}
    {gm : List (List Char × List PotentialVideo)} {g : List Char}
    {pv0 : PotentialVideo}
    (hgm : ∀ q ∈ gm, ∀ pv ∈ q.2, pvOK dset pv) (hpv : pvOK dset pv0) :
    ∀ q ∈ insertInYear gm g pv0, ∀ pv ∈ q.2, pvOK dset pv := by
  induction gm with
  | nil =>
    intro q hq pv hpv2
    simp only [insertInYear, List.mem_singleton] at hq
    rw [hq] at hpv2
    simp only [List.mem_singleton] at hpv2
    rw [hpv2]; exact hpv
  | cons p rest ih =>
    intro q hq pv hpv2
    by_cases hg : p.1 = g
    · simp only [insertInYear, if_pos hg] at hq
      rcases List.mem_cons.mp hq with h | h
      · rw [h] at hpv2
        rcases List.mem_append.mp hpv2 with h2 | h2
        · exact hgm p (List.mem_cons_self p rest) pv h2
        · rw [List.mem_singleton.mp h2]; exact hpv
      · exact hgm q (List.mem_cons_of_mem p h) pv hpv2
    · simp only [insertInYear, if_neg hg] at hq
      rcases List.mem_cons.mp hq with h | h
      · rw [h] at hpv2
        exact hgm p (List.mem_cons_self p rest) pv hpv2
      · exact ih (fun r hr => hgm r (List.mem_cons_of_mem p hr)) q h pv hpv2

theorem insertPV_ok {dset : List (List Char)} {m : GroupMap}
    {y g : List Char} {pv0 : PotentialVideo}
    (hm : mapOK dset m) (hpv : pvOK dset pv0) :
    mapOK dset (insertPV m y g pv0) := by
  induction m with
  | nil =>
    intro p hp q hq pv hpv2
    simp only [insertPV, List.mem_singleton] at hp
    rw [hp] at hq
    simp only [List.mem_singleton] at hq
    rw [hq] at hpv2
    simp only [List.mem_singleton] at hpv2
    rw [hpv2]; exact hpv
  | cons p0 rest ih =>
    intro p hp q hq pv hpv2
    by_cases hy : p0.1 = y
    · simp only [insertPV, if_pos hy] at hp
      rcases List.mem_cons.mp hp with h | h
      · rw [h] at hq
        exact insertInYear_ok
          (fun r hr => hm p0 (List.mem_cons_self p0 rest) r hr) hpv q hq pv hpv2
      · exact hm p (List.mem_cons_of_mem p0 h) q hq pv hpv2
    · simp only [insertPV, if_neg hy] at hp
      rcases List.mem_cons.mp hp with h | h
      · rw [h] at hq
        exact hm p0 (List.mem_cons_self p0 rest) q hq pv hpv2
      · exact ih (fun r hr => hm r (List.mem_cons_of_mem p0 hr)) p h q hq pv hpv2

theorem collectStep_ok {conjuntos : Catalog} {forcedYear : Option (List Char)}
    {dset : List (List Char)} {st : CollectState} {stub : Stub}
    (hst : mapOK dset st.map) :
    mapOK dset (collectStep conjuntos forcedYear dset st stub).map := by
  unfold collectStep
  split
  · exact hst
  · split <;> (try dsimp only) <;> split <;>
      first | exact insertPV_ok hst rfl | exact hst

theorem collectPass_ok (stubs : List Stub) (conjuntos : Catalog)
    (forcedYear : Option (List Char)) (dset : List (List Char)) :
    mapOK dset (collectPass stubs conjuntos forcedYear dset).map := by
  unfold collectPass
  have hgen : ∀ (l : List Stub) (st : CollectState), mapOK dset st.map →
      mapOK dset (l.foldl (collectStep conjuntos forcedYear dset) st).map := by
    intro l
    induction l with
    | nil => intro st h; exact h
    | cons s t ih =>
      intro st h
      exact ih _ (collectStep_ok h)
  exact hgen stubs ⟨[], [], 0⟩ (fun p hp => absurd hp (List.not_mem_nil p))

/-- C2: for any bucket produced by the collection pass whose highest-priority
candidate has its id in the archive set, the selection pass chooses nothing
from the bucket and only records archived skips, never substituting a
lower-priority sibling. -/
theorem c2_archived_winner_skips_bucket :
    ∀ (stubs : List Stub) (conjuntos : Catalog)
      (forcedYear : Option (List Char)) (dset : List (List Char))
      (y : List Char) (gm : List (List Char × List PotentialVideo))
      (g : List Char) (v : PotentialVideo) (vs : List PotentialVideo),
      (y, gm) ∈ (collectPass stubs conjuntos forcedYear dset).map →
      (g, v :: vs) ∈ gm →
      (pickWinner v vs).id ∈ dset →
      (decideBucket (v :: vs)).chosen = none ∧
      (decideBucket (v :: vs)).skippedLower = [] ∧
      (decideBucket (v :: vs)).skippedArchived =
        (v :: vs).filter
          (fun x => !(x.id = (pickWinner v vs).id : Bool)) := by
  intro stubs conjuntos forcedYear dset y gm g v vs hym hgm hdl
  have hok := collectPass_ok stubs conjuntos forcedYear dset (y, gm) hym
    (g, v :: vs) hgm (pickWinner v vs) (pickWinner_mem vs v)
  have hdown : (pickWinner v vs).isDownloaded = true := by
    rw [hok]; exact decide_eq_true hdl
  simp [decideBucket, hdown]

/-- Stubs of the C2 witness: three same-bucket recordings with priorities
1, 2 and 3. -/
def exStubC : Stub :=
  ⟨"idCCCCCCCCC".toList,
   "4ta Etapa 2019 - Agarrate Catalina - Segunda Rueda".toList,
   "uC".toList⟩

/-- The collected candidate of exStubA. -/
def exPvA : PotentialVideo :=
  ⟨"idAAAAAAAAA".toList, "uA".toList,
   "4ta Etapa 2019 - Agarrate Catalina - Primera Rueda".toList,
   "2019".toList,
   ConjMatch.mk ("Agarrate Catalina".toList) ("Murgas".toList),
   some ("Primera Rueda".toList), 1, false⟩

/-- The collected candidate of exStubC. -/
def exPvC : PotentialVideo :=
  ⟨"idCCCCCCCCC".toList, "uC".toList,
   "4ta Etapa 2019 - Agarrate Catalina - Segunda Rueda".toList,
   "2019".toList,
   ConjMatch.mk ("Agarrate Catalina".toList) ("Murgas".toList),
   some ("Segunda Rueda".toList), 2, false⟩

/-- The collected candidate of exStubB, already archived. -/
def exPvB : PotentialVideo :=
  ⟨"idBBBBBBBBB".toList, "uB".toList,
   "4ta Etapa 2019 - Agarrate Catalina - Liguilla".toList,
   "2019".toList,
   ConjMatch.mk ("Agarrate Catalina".toList) ("Murgas".toList),
   some ("Liguilla".toList), 3, true⟩

/-- C2 witness: with the liguilla recording already archived, the whole
bucket yields no chosen video even though the others are not archived. -/
theorem c2_witness :
    (decideBucket [exPvA, exPvC, exPvB]).chosen = none :=
  (c2_archived_winner_skips_bucket [exStubA, exStubC, exStubB] exCatalog none
    ["idBBBBBBBBB".toList] ("2019".toList)
    [("Agarrate Catalina".toList, [exPvA, exPvC, exPvB])]
    ("Agarrate Catalina".toList) exPvA [exPvC, exPvB]
    (by decide) (by decide) (by decide)).1

/-! ### Claim C7: the download archive set -/

theorem setAdd_mem (acc : List (List Char)) (y x : List Char) :
    x ∈ setAdd acc y ↔ x ∈ acc ∨ x = y := by
  unfold setAdd
  by_cases hy : y ∈ acc
  · rw [if_pos hy]
    constructor
    · exact Or.inl
    · rintro (h | h)
      · exact h
      · rw [h]; exact hy
  · rw [if_neg hy]
    simp [List.mem_append]

theorem getLastD_mem {α : Type} : ∀ (l : List α) (d : α), l ≠ [] →
    l.getLastD d ∈ l := by
  intro l
  induction l with
  | nil => intro d h; exact absurd rfl h
  | cons a t ih =>
    intro d _
    rw [List.getLastD_cons]
    cases t with
    | nil => exact List.mem_cons_self a []
    | cons b u => exact List.mem_cons_of_mem a (ih a (List.cons_ne_nil b u))

theorem wsTokens_mem_ne_nil {s : List Char} (hs : s ≠ []) :
    ∀ t ∈ wsTokens s, t ≠ [] := by
  intro t ht
  unfold wsTokens at ht
  rw [if_neg hs] at ht
  have hfl := (List.mem_filter.mp ht).2
  intro hnil
  rw [hnil] at hfl
  simp at hfl

theorem wsTokens_getLastD_ne_nil {s : List Char}
    (h : 2 ≤ (wsTokens s).length) : (wsTokens s).getLastD [] ≠ [] := by
  by_cases hs : s = []
  · rw [hs] at h
    simp [wsTokens] at h
  · have hne : wsTokens s ≠ [] := by
      intro hnil
      rw [hnil] at h
      simp at h
    exact wsTokens_mem_ne_nil hs _ (getLastD_mem (wsTokens s) [] hne)

theorem downloadedLineStep_mem (acc : List (List Char)) (line x : List Char) :
    x ∈ downloadedLineStep acc line ↔
      x ∈ acc ∨ (2 ≤ (wsTokens (jsTrim line)).length ∧
        (wsTokens (jsTrim line)).getLastD [] = x) := by
  unfold downloadedLineStep
  by_cases h2 : 2 ≤ (wsTokens (jsTrim line)).length
  · rw [if_pos h2, if_neg (wsTokens_getLastD_ne_nil h2)]
    rw [setAdd_mem]
    constructor
    · rintro (h | h)
      · exact Or.inl h
      · exact Or.inr ⟨h2, h.symm⟩
    · rintro (h | ⟨_, h⟩)
      · exact Or.inl h
      · exact Or.inr h.symm
  · rw [if_neg h2]
    constructor
    · exact Or.inl
    · rintro (h | ⟨hh, _⟩)
      · exact h
      · exact absurd hh h2

theorem downloadedFold_mem :
    ∀ (lines : List (List Char)) (acc : List (List Char)) (x : List Char),
      x ∈ lines.foldl downloadedLineStep acc ↔
        x ∈ acc ∨ ∃ line ∈ lines, 2 ≤ (wsTokens (jsTrim line)).length ∧
          (wsTokens (jsTrim line)).getLastD [] = x := by
  intro lines
  induction lines with
  | nil =>
    intro acc x
    simp
  | cons l ls ih =>
    intro acc x
    rw [List.foldl_cons, ih, downloadedLineStep_mem]
    constructor
    · rintro ((h | h) | ⟨line, hline, hp⟩)
      · exact Or.inl h
      · exact Or.inr ⟨l, List.mem_cons_self l ls, h⟩
      · exact Or.inr ⟨line, List.mem_cons_of_mem l hline, hp⟩
    · rintro (h | ⟨line, hline, hp⟩)
      · exact Or.inl (Or.inl h)
      · rcases List.mem_cons.mp hline with h | h
        · exact Or.inl (Or.inr (h ▸ hp))
        · exact Or.inr ⟨line, h, hp⟩

/-- C7 (amended): an id is in the downloaded set exactly when some line of
the archive file has at least two whitespace-separated tokens and its last
token is that id; one-token lines contribute nothing. -/
theorem c7_getDownloadedSet_amended :
    ∀ (content : List Char) (idv : List Char),
      idv ∈ getDownloadedSet content ↔
        ∃ line ∈ splitNl content, 2 ≤ (wsTokens (jsTrim line)).length ∧
          (wsTokens (jsTrim line)).getLastD [] = idv := by
  intro content idv
  unfold getDownloadedSet
  rw [downloadedFold_mem]
  simp

/-- C7 (counterexample): a one-token line carries a last token, yet the
resulting set is empty, contradicting the claim that every line contributes
its last token. -/
theorem c7_counterexample :
    getDownloadedSet ("abc123xyz00".toList) = [] ∧
    splitNl ("abc123xyz00".toList) = ["abc123xyz00".toList] ∧
    (wsTokens (jsTrim ("abc123xyz00".toList))).getLastD [] =
      "abc123xyz00".toList := by
  refine ⟨by decide, by decide, by decide⟩

/-! ### Claim C8: readTrackingJson never raises -/

/-- C8: readTrackingJson is total and returns the empty list on a missing
file, unparseable or empty content, and non-array JSON, and the array
entries otherwise. -/
theorem c8_readTrackingJson_total :
    readTrackingJson .missing = [] ∧
    readTrackingJson (.raw none) = [] ∧
    readTrackingJson (.raw (some .prim)) = [] ∧
    ∀ xs : List JEntry, readTrackingJson (.raw (some (.arr xs))) = xs :=
  ⟨rfl, rfl, rfl, fun _ => rfl⟩

/-! ### Claim C9: append and removal round-trips -/

theorem filter_all_of_length_eq {α : Type} (p : α → Bool) :
    ∀ l : List α, (l.filter p).length = l.length → ∀ a ∈ l, p a = true := by
  intro l
  induction l with
  | nil => intro _ a ha; exact absurd ha (List.not_mem_nil a)
  | cons x t ih =>
    intro hlen a ha
    by_cases hx : p x = true
    · rw [List.filter_cons_of_pos hx] at hlen
      simp only [List.length_cons, Nat.add_right_cancel_iff] at hlen
      rcases List.mem_cons.mp ha with h | h
      · rw [h]; exact hx
      · exact ih hlen a h
    · rw [List.filter_cons_of_neg hx] at hlen
      have hle := List.length_filter_le p t
      simp only [List.length_cons] at hlen
      omega

/-- C9 (amended): appending an entry and reading back yields the old list
with the entry appended (no deduplication), and removing a non-empty id
leaves no entry carrying that id. -/
theorem c9_tracking_roundtrip :
    (∀ (fs : FileState) (e : JEntry),
      readTrackingJson (addTrackingEntry fs e) = readTrackingJson fs ++ [e]) ∧
    (∀ (fs : FileState) (vid : List Char), vid ≠ [] →
      ∀ e ∈ readTrackingJson (removeTrackingEntryById fs vid),
        entryId e ≠ some vid) := by
  refine ⟨fun fs e => rfl, ?_⟩
  intro fs vid hvid e he
  have hmatch : ∀ x : JEntry, (!matchesId x vid) = true → entryId x ≠ some vid := by
    intro x hx
    cases x with
    | jnull => exact fun hc => Option.noConfusion hc
    | jobj i payload =>
      cases i with
      | none => exact fun hc => Option.noConfusion hc
      | some j =>
        have hx2 : (!(decide (j = vid))) = true := hx
        have hji : j ≠ vid := by simpa using hx2
        exact fun hc => hji (Option.some.inj hc)
  rw [removeTrackingEntryById, if_neg hvid] at he
  by_cases hlt : ((readTrackingJson fs).filter
      (fun x => !matchesId x vid)).length < (readTrackingJson fs).length
  · rw [if_pos hlt] at he
    have : e ∈ (readTrackingJson fs).filter (fun x => !matchesId x vid) := he
    exact hmatch e (List.mem_filter.mp this).2
  · rw [if_neg hlt] at he
    have hlen : ((readTrackingJson fs).filter
        (fun x => !matchesId x vid)).length = (readTrackingJson fs).length :=
      le_antisymm (List.length_filter_le _ _) (not_lt.mp hlt)
    exact hmatch e (filter_all_of_length_eq _ (readTrackingJson fs) hlen e he)

/-- C9 (counterexample): an entry whose id is the empty string is appended
and then removed by its own id, but the falsy-id guard makes the removal a
no-op, so the read-back still contains an entry with that id. -/
theorem c9_counterexample :
    readTrackingJson (removeTrackingEntryById
        (addTrackingEntry (FileState.raw (some (JVal.arr [])))
          (JEntry.jobj (some []) 0)) []) =
      [JEntry.jobj (some []) 0] ∧
    entryId (JEntry.jobj (some []) 0) = some [] := ⟨rfl, rfl⟩

/-- C9 witness: removing id A from a two-entry store leaves only the entry
with id B, whose id differs from A. -/
theorem c9_witness :
    entryId (JEntry.jobj (some ("B".toList)) 0) ≠ some ("A".toList) :=
  c9_tracking_roundtrip.2
    (FileState.raw (some (JVal.arr
      [JEntry.jobj (some ("B".toList)) 0, JEntry.jobj (some ("A".toList)) 1])))
    ("A".toList) (by decide) (JEntry.jobj (some ("B".toList)) 0) (by decide)

end Carnavul
